import Mathlib

/-!
Verification of the intent-scoped policy gate:
`IntentManager` (src/hooks/IntentManager.ts), `PreToolHook`
(pre-execution policy gate) and `TracePostHook` (post-execution audit
logger).  The TypeScript sources are shallowly embedded: the dynamic
JS/YAML values flowing through intent normalization are modelled by the
`JsValue` type below; the stateful manager methods are modelled as
explicit state-passing functions; external collaborators that are not
part of the repository core (the YAML parser, the structured-patch
parser `parsePatch`, `ScopeValidator.validatePath`, the filesystem, the
hash function and the clock) are modelled as abstract inputs, so that
every theorem quantifies over their behaviour.
-/

mutual
/-- Model of a dynamically typed JavaScript/YAML value.  Arrays and
objects use the companion types `JsArr` and `JsObj` so that functions on
`JsValue` are structurally recursive (and hence compute by `rfl`). -/
inductive JsValue where
  | jsUndefined
  | jsNull
  | bool (b : Bool)
  | num (n : Int)
  | str (s : String)
  | arr (elems : JsArr)
  | obj (fields : JsObj)

inductive JsArr where
  | nil
  | cons (head : JsValue) (tail : JsArr)

inductive JsObj where
  | nil
  | cons (key : String) (val : JsValue) (tail : JsObj)
end

/-- Convert a `JsArr` to an ordinary list of values. -/
def JsArr.toList : JsArr → List JsValue
  | .nil => []
  | .cons v t => v :: t.toList

/-- Build a `JsArr` from a list (used to write concrete test documents). -/
def JsArr.ofList : List JsValue → JsArr
  | [] => .nil
  | v :: t => .cons v (JsArr.ofList t)

/-- First binding of `key` in an object (YAML objects have unique keys). -/
def JsObj.lookupKey : JsObj → String → Option JsValue
  | .nil, _ => none
  | .cons k v t, key => if k = key then some v else t.lookupKey key

/-- JavaScript truthiness of a value (`NaN` is outside the model; numbers
are modelled as integers). -/
def jsTruthy : JsValue → Bool
  | .jsUndefined => false
  | .jsNull => false
  | .bool b => b
  | .num n => n != 0
  | .str s => s != ""
  | .arr _ => true
  | .obj _ => true

/-- JavaScript `a || b`. -/
def jsOr (a b : JsValue) : JsValue :=
  if jsTruthy a then a else b

/-- JavaScript `a ?? b` (nullish coalescing). -/
def jsCoalesce (a b : JsValue) : JsValue :=
  match a with
  | .jsUndefined => b
  | .jsNull => b
  | v => v

/-- Property read `base[key]` on a value that is not `null`/`undefined`
(reading a property of `null`/`undefined` throws and is handled at the
call sites that can receive such a base). Primitives have none of the
properties read by the embedded code, so they yield `undefined`. -/
def jsField (base : JsValue) (key : String) : JsValue :=
  match base with
  | .obj fields => (fields.lookupKey key).getD .jsUndefined
  | _ => .jsUndefined

/-- Optional-chained property read `base?.[key]`: a `null`/`undefined`
base yields `undefined` instead of throwing. -/
def jsFieldOpt (base : JsValue) (key : String) : JsValue :=
  match base with
  | .jsUndefined => .jsUndefined
  | .jsNull => .jsUndefined
  | v => jsField v key

mutual
/-- Model of JavaScript `String(v)`.  Arrays stringify by joining their
elements with `,`, rendering `null`/`undefined` elements as the empty
string; plain objects stringify to `[object Object]`. -/
def jsToString : JsValue → String
  | .jsUndefined => "undefined"
  | .jsNull => "null"
  | .bool b => if b then "true" else "false"
  | .num n => toString n
  | .str s => s
  | .arr elems => String.intercalate "," (jsArrElemStrings elems)
  | .obj _ => "[object Object]"

def jsArrElemStrings : JsArr → List String
  | .nil => []
  | .cons e t =>
      (match e with
       | .jsNull => ""
       | .jsUndefined => ""
       | e => jsToString e) :: jsArrElemStrings t
end

/-- JSON string escaping for `JSON.stringify` (quote, backslash and the
common control characters; other characters pass through unchanged). -/
def jsonEscapeChar (c : Char) : String :=
  if c = '"' then "\\\""
  else if c = '\\' then "\\\\"
  else if c = '\n' then "\\n"
  else if c = '\r' then "\\r"
  else if c = '\t' then "\\t"
  else String.singleton c

/-- A JSON-quoted string literal. -/
def jsonQuote (s : String) : String :=
  "\"" ++ String.join (s.data.map jsonEscapeChar) ++ "\""

mutual
/-- Model of `JSON.stringify`.  `none` models the `undefined` result (for
an `undefined` input); inside arrays `undefined` renders as `null`, and
object entries whose value is `undefined` are dropped. -/
def jsonStringify : JsValue → Option String
  | .jsUndefined => none
  | .jsNull => some "null"
  | .bool b => some (if b then "true" else "false")
  | .num n => some (toString n)
  | .str s => some (jsonQuote s)
  | .arr elems => some ("[" ++ String.intercalate "," (jsonArrParts elems) ++ "]")
  | .obj fields => some ("\x7b" ++ String.intercalate "," (jsonObjParts fields) ++ "\x7d")

def jsonArrParts : JsArr → List String
  | .nil => []
  | .cons v t => ((jsonStringify v).getD "null") :: jsonArrParts t

def jsonObjParts : JsObj → List String
  | .nil => []
  | .cons k v t =>
      match jsonStringify v with
      | none => jsonObjParts t
      | some s => (jsonQuote k ++ ":" ++ s) :: jsonObjParts t
end

/-- The whitespace characters stripped by JavaScript `String.prototype.trim`
(the common subset: space, tab, line terminators, vertical tab, form
feed, no-break space, BOM). -/
def isJsWhitespace (c : Char) : Bool :=
  c = ' ' || c = '\t' || c = '\n' || c = '\r' ||
  c = '\x0b' || c = '\x0c' || c = '\u00A0' || c = '\uFEFF'

/-- Strip leading and trailing whitespace from a character list. -/
def trimChars (l : List Char) : List Char :=
  (((l.dropWhile isJsWhitespace).reverse.dropWhile isJsWhitespace)).reverse

/-- Model of JavaScript `s.trim()`. -/
def jsTrim (s : String) : String :=
  ⟨trimChars s.data⟩

/-- Model of JavaScript `s.toUpperCase()` (ASCII case mapping). -/
def jsToUpperCase (s : String) : String :=
  ⟨s.data.map Char.toUpper⟩

/-- Intent status (src/hooks/types.ts via `IntentManager.normalizeIntent`). -/
inductive IntentStatus where
  | PLANNED
  | PENDING
  | IN_PROGRESS
  | COMPLETED
  | BLOCKED
deriving DecidableEq

/-- The status strings recognized by `IntentManager.normalizeIntent`. -/
def knownStatusStrings : List String :=
  ["PLANNED", "PENDING", "IN_PROGRESS", "COMPLETED", "BLOCKED"]

/-- The recognition chain of `normalizeIntent` on the upper-cased raw
status string: a recognized value decodes to itself, anything else to
`PENDING`. -/
def statusFromUpper (s : String) : IntentStatus :=
  if s = "PLANNED" then .PLANNED
  else if s = "PENDING" then .PENDING
  else if s = "IN_PROGRESS" then .IN_PROGRESS
  else if s = "COMPLETED" then .COMPLETED
  else if s = "BLOCKED" then .BLOCKED
  else .PENDING

/-- A normalized intent (`ActiveIntent` in src/hooks/types.ts).
`metadata` keeps the raw value that passed the
`metadata && typeof metadata === "object"` guard. -/
structure ActiveIntent where
  id : String
  name : String
  description : String
  status : IntentStatus
  ownedScope : List String
  constraints : List String
  acceptanceCriteria : List String
  metadata : JsValue

/-- `IntentManager.normalizeStringArray`: non-arrays normalize to `[]`;
array items are converted to strings (`String(item ?? "")` for
non-strings), trimmed, and empty results are dropped. -/
def normalizeStringArray (value : JsValue) : List String :=
  match value with
  | .arr items =>
      ((items.toList.map (fun item =>
          match item with
          | .str s => s
          | other => jsToString (jsCoalesce other (.str "")))).map jsTrim).filter
        (fun s => s.length > 0)
  | _ => []

/-- The `JSON.stringify` fallback push of the constraint-normalization
loop: `const compact = JSON.stringify(objectItem); if (compact)
normalized.push(compact)`. -/
def compactPush (item : JsValue) : List String :=
  match jsonStringify item with
  | some compact => if compact != "" then [compact] else []
  | none => []

/-- The per-item body of the `IntentManager.normalizeConstraints` loop: a
string entry is trimmed and kept when non-empty; an object (or array)
entry prefers a non-blank string `rule` field, else falls back to
`compactPush`; everything else is dropped. -/
def normalizeConstraintItem (item : JsValue) : List String :=
  match item with
  | .str s => if (jsTrim s).length > 0 then [jsTrim s] else []
  | .arr _ | .obj _ =>
      (match jsField item "rule" with
       | .str r => if (jsTrim r).length > 0 then [jsTrim r] else compactPush item
       | _ => compactPush item)
  | _ => []

/-- `IntentManager.normalizeConstraints`: the pushes of the source loop,
collected per item by `normalizeConstraintItem`. -/
def normalizeConstraints (value : JsValue) : List String :=
  match value with
  | .arr items => items.toList.flatMap normalizeConstraintItem
  | _ => []

/-- The intent record built by `IntentManager.normalizeIntent` from a raw
entry whose property reads do not throw. -/
def normalizeIntentFields (raw : JsValue) : ActiveIntent :=
  { id := jsToString (jsOr (jsField raw "id") (.str ""))
    name := jsToString (jsOr (jsField raw "name") (.str ""))
    description := jsToString (jsOr (jsField raw "description") (.str ""))
    status :=
      statusFromUpper (jsToUpperCase (jsToString (jsOr (jsField raw "status") (.str "PENDING"))))
    ownedScope :=
      normalizeStringArray (jsCoalesce (jsField raw "ownedScope") (jsField raw "owned_scope"))
    constraints := normalizeConstraints (jsField raw "constraints")
    acceptanceCriteria :=
      normalizeStringArray
        (jsCoalesce (jsField raw "acceptanceCriteria") (jsField raw "acceptance_criteria"))
    metadata :=
      match jsField raw "metadata" with
      | .arr a => .arr a
      | .obj o => .obj o
      | _ => .obj .nil }

/-- `IntentManager.normalizeIntent`.  A `null`/`undefined` raw entry makes
the property reads throw, modelled by `none`; any other value normalizes
to the record built by `normalizeIntentFields`, exactly as in the
source. -/
def normalizeIntent (rawIntent : JsValue) : Option ActiveIntent :=
  match rawIntent with
  | .jsUndefined => none
  | .jsNull => none
  | raw => some (normalizeIntentFields raw)

/-- The process-local state of an `IntentManager`: the memoized intent
list (`intentsCache`, `null` when unpopulated) and the per-task
active-intent bindings (`activeIntentsByTask`). -/
structure ManagerState where
  intentsCache : Option (List ActiveIntent)
  activeIntentsByTask : List (String × String)

/-- Model of the `OrchestrationStorage` view of `active_intents.yaml`:
whether the file exists, and what `yaml.parse` yields on its contents
(`Except.error` models a parse exception). -/
structure StorageModel where
  intentsFileExists : Bool
  parsedYaml : Except String JsValue

/-- Result of one `loadIntents` call: the returned value (or thrown
error), the manager state afterwards, and whether the underlying
read-and-parse of the definition resource was performed. -/
structure LoadResult where
  result : Except String (List ActiveIntent)
  state : ManagerState
  didParse : Bool

/-- Message of the `TypeError` thrown when a `null` entry of the raw
intent array has its properties read inside `normalizeIntent`. -/
def nullEntryErrorMessage : String :=
  "Cannot read properties of null"

/-- The raw-entry selection of `IntentManager.loadIntents`:
`Array.isArray(parsed?.intents) ? parsed.intents :
Array.isArray(parsed?.active_intents) ? parsed.active_intents : null`. -/
def extractRawIntents (parsed : JsValue) : Option (List JsValue) :=
  match jsFieldOpt parsed "intents" with
  | .arr xs => some xs.toList
  | _ =>
      match jsFieldOpt parsed "active_intents" with
      | .arr xs => some xs.toList
      | _ => none

/-- `IntentManager.loadIntents`: serve the cache when populated;
initialize an empty document when the file is missing; otherwise parse,
pick the `intents` or legacy `active_intents` root, normalize each raw
entry, and memoize.  A parse failure is re-thrown wrapped in the
`Failed to parse active_intents.yaml:` message and leaves the cache
unpopulated. -/
def IntentManager.loadIntents (st : ManagerState) (storage : StorageModel) : LoadResult :=
  match st.intentsCache with
  | some cache => { result := .ok cache, state := st, didParse := false }
  | none =>
      if storage.intentsFileExists = false then
        -- initializeIntentsFile writes a default document (best-effort);
        -- the write does not affect the manager state.
        { result := .ok []
          state := { st with intentsCache := some [] }
          didParse := false }
      else
        match storage.parsedYaml with
        | .error e =>
            { result := .error ("Failed to parse active_intents.yaml: " ++ e)
              state := st
              didParse := true }
        | .ok parsed =>
            match extractRawIntents parsed with
            | none =>
                { result := .ok []
                  state := { st with intentsCache := some [] }
                  didParse := true }
            | some raws =>
                match raws.mapM normalizeIntent with
                | none =>
                    { result :=
                        .error ("Failed to parse active_intents.yaml: " ++ nullEntryErrorMessage)
                      state := st
                      didParse := true }
                | some intents =>
                    { result := .ok intents
                      state := { st with intentsCache := some intents }
                      didParse := true }

/-- `IntentManager.getIntent`: load (through the cache) and linear-search
by id (`find(...) || null`). -/
def IntentManager.getIntent (st : ManagerState) (storage : StorageModel) (intentId : String) :
    Except String (Option ActiveIntent × ManagerState) :=
  let L := IntentManager.loadIntents st storage
  L.result.map (fun intents => (intents.find? (fun i => i.id == intentId), L.state))

/-- `IntentManager.setActiveIntent`: resolve the id (throwing
`Intent ... not found` when absent) and record the binding, replacing a
prior binding for the task. -/
def IntentManager.setActiveIntent (st : ManagerState) (storage : StorageModel)
    (taskId intentId : String) : Except String ManagerState := do
  let (found, st1) ← IntentManager.getIntent st storage intentId
  match found with
  | none => .error ("Intent " ++ intentId ++ " not found")
  | some _ =>
      .ok
        { st1 with
          activeIntentsByTask :=
            (taskId, intentId) :: st1.activeIntentsByTask.filter (fun b => b.1 != taskId) }

/-- `IntentManager.getActiveIntent`: look up the bound id for the task
(`if (!intentId) return null` also treats an empty-string binding as
absent) and resolve it back through `getIntent`. -/
def IntentManager.getActiveIntent (st : ManagerState) (storage : StorageModel) (taskId : String) :
    Except String (Option ActiveIntent × ManagerState) :=
  match st.activeIntentsByTask.lookup taskId with
  | none => .ok (none, st)
  | some intentId =>
      if intentId = "" then .ok (none, st)
      else IntentManager.getIntent st storage intentId

/-- `IntentManager.clearActiveIntent`: drop the task's binding. -/
def IntentManager.clearActiveIntent (st : ManagerState) (taskId : String) : ManagerState :=
  { st with activeIntentsByTask := st.activeIntentsByTask.filter (fun b => b.1 != taskId) }

/-- `IntentManager.invalidateCache`: reset only the intents cache. -/
def IntentManager.invalidateCache (st : ManagerState) : ManagerState :=
  { st with intentsCache := none }

/-- The tool parameters read by the hooks (`context.toolParams`).  Only
`path`, `file_path` and `patch` are ever read by path extraction; all
other parameters (such as `command`, `diff`, `old_string`) are never
inspected, so they are not part of the model.  `none` models an absent
(`undefined`) parameter. -/
structure ToolParams where
  path : Option String := none
  file_path : Option String := none
  patch : Option String := none

/-- `ToolExecutionContext` (src/hooks/types.ts, the fields read by the
hooks). -/
structure ToolExecutionContext where
  toolName : String
  toolParams : ToolParams
  taskId : String
  workspacePath : String
  activeIntentId : Option String := none

/-- `PreHookResult`: `{ allowed: bool, error?: string }`. -/
structure PreHookResult where
  allowed : Bool
  error : Option String := none
deriving DecidableEq

/-- The `DESTRUCTIVE_TOOLS` set, defined identically in PreToolHook.ts
and TracePostHook.ts. -/
def DESTRUCTIVE_TOOLS : List String :=
  ["write_to_file", "execute_command", "edit", "search_and_replace",
   "edit_file", "search_replace", "apply_diff", "apply_patch"]

/-- Hunk kinds produced by the external structured-patch parser
(src/core/tools/apply-patch, outside the provided sources).  Modelled
from the spec: an add hunk, an update hunk (optionally carrying a
move/rename destination) and a delete hunk. -/
inductive HunkType where
  | AddFile
  | UpdateFile
  | DeleteFile
deriving DecidableEq

/-- One parsed patch hunk: its target path, kind, and optional
move/rename destination. -/
structure PatchHunk where
  type : HunkType
  path : String
  movePath : Option String := none

/-- The parse result of the external `parsePatch`. -/
structure ParsedPatch where
  hunks : List PatchHunk

/-- The external collaborators of the hooks, supplied as abstract
functions: the structured-patch parser (which may throw, modelled by
`Except.error`), `ScopeValidator.validatePath`, the filesystem read
(`none` models a read failure), the sha256 hex digest, the `path`
module's absolute-path test and resolution, and the ISO timestamp of the
current instant. -/
structure ExternalDeps where
  parsePatch : String → Except String ParsedPatch
  validatePath : String → List String → Bool
  readFile : String → Option String
  sha256hex : String → String
  isAbsolute : String → Bool
  resolvePath : String → String → String
  timestamp : String

/-- JavaScript `(a as string) || (b as string)` on two optional string
parameters: an absent or empty first operand falls through to the
second, an absent second operand yields the empty (falsy) string. -/
def jsOrStr (a b : Option String) : String :=
  if a.getD "" ≠ "" then a.getD "" else b.getD ""

/-- `filePath ? [filePath] : []`. -/
def pathListOf (a b : Option String) : List String :=
  if jsOrStr a b ≠ "" then [jsOrStr a b] else []

/-- `PreToolHook.extractPathsForScopeValidation`: per-kind candidate
paths; `apply_patch` collects every hunk path plus the move destination
of update hunks; a parser throw propagates as `Except.error`. -/
def PreToolHook.extractPathsForScopeValidation (deps : ExternalDeps)
    (context : ToolExecutionContext) : Except String (List String) :=
  match context.toolName with
  | "write_to_file" | "apply_diff" =>
      .ok (pathListOf context.toolParams.path context.toolParams.file_path)
  | "edit" | "search_and_replace" | "search_replace" | "edit_file" =>
      .ok (pathListOf context.toolParams.file_path context.toolParams.path)
  | "apply_patch" =>
      match context.toolParams.patch with
      | none => .ok []
      | some patch =>
          if patch = "" then .ok []
          else
            (deps.parsePatch patch).map (fun parsed =>
              parsed.hunks.flatMap (fun hunk =>
                hunk.path ::
                  (match hunk.type, hunk.movePath with
                   | .UpdateFile, some m => if m ≠ "" then [m] else []
                   | _, _ => [])))
  | _ => .ok []

/-- The `No active intent selected. ...` denial message. -/
def noActiveIntentMessage (toolName : String) : String :=
  "No active intent selected. Please use the select_active_intent tool to select an intent before performing "
    ++ toolName ++ " operations."

/-- The unconditional `execute_command` denial message. -/
def executeCommandDenialMessage (intent : ActiveIntent) : String :=
  "Scope Violation: Intent " ++ intent.id ++ " (" ++ intent.name ++
    ") cannot authorize execute_command because command side effects cannot be validated against ownedScope. Use file-editing tools within scope instead."

/-- The scope-violation denial message, naming the intent, the offending
path and the full allowed-scope list. -/
def scopeViolationMessage (intent : ActiveIntent) (filePath : String) : String :=
  "Scope Violation: Intent " ++ intent.id ++ " (" ++ intent.name ++
    ") is not authorized to edit " ++ filePath ++ ". Allowed scope: " ++
    String.intercalate ", " intent.ownedScope

/-- The invalid-payload denial message produced when path extraction
throws. -/
def invalidPayloadMessage (toolName errorMessage : String) : String :=
  "Invalid " ++ toolName ++ " payload for intent scope validation: " ++ errorMessage

/-- Active-intent resolution, implemented identically by
`PreToolHook.run` (inline) and `TracePostHook.getActiveIntent`: a truthy
`context.activeIntentId` is looked up first via `getIntent`; when that
yields nothing the task's bound intent is resolved via
`getActiveIntent`.  A load failure propagates as a thrown error. -/
def resolveActiveIntent (st : ManagerState) (storage : StorageModel)
    (context : ToolExecutionContext) : Except String (Option ActiveIntent × ManagerState) := do
  let first : Option ActiveIntent × ManagerState ←
    match context.activeIntentId with
    | some s =>
        if s ≠ "" then IntentManager.getIntent st storage s else pure (none, st)
    | none => pure (none, st)
  match first.1 with
  | some intent => pure (some intent, first.2)
  | none => IntentManager.getActiveIntent first.2 storage context.taskId

/-- `PreToolHook.run`: allow non-destructive tools outright; otherwise
resolve the active intent (denying with `noActiveIntentMessage` when none
resolves), deny `execute_command` unconditionally, extract the candidate
paths (denying with `invalidPayloadMessage` on a parser throw), and deny
with `scopeViolationMessage` on the first out-of-scope path, else
allow. -/
def PreToolHook.run (deps : ExternalDeps) (st : ManagerState) (storage : StorageModel)
    (context : ToolExecutionContext) : Except String (PreHookResult × ManagerState) :=
  if DESTRUCTIVE_TOOLS.contains context.toolName = false then
    .ok ({ allowed := true }, st)
  else
    match resolveActiveIntent st storage context with
    | .error e => .error e
    | .ok (none, st1) =>
        .ok ({ allowed := false, error := some (noActiveIntentMessage context.toolName) }, st1)
    | .ok (some activeIntent, st1) =>
        if context.toolName = "execute_command" then
          .ok ({ allowed := false, error := some (executeCommandDenialMessage activeIntent) }, st1)
        else
          match PreToolHook.extractPathsForScopeValidation deps context with
          | .error e =>
              .ok
                ({ allowed := false, error := some (invalidPayloadMessage context.toolName e) },
                 st1)
          | .ok pathsToValidate =>
              match pathsToValidate.find?
                  (fun p => !(deps.validatePath p activeIntent.ownedScope)) with
              | some offending =>
                  .ok
                    ({ allowed := false
                       error := some (scopeViolationMessage activeIntent offending) }, st1)
              | none => .ok ({ allowed := true }, st1)

/-- Mutation class of a trace target. -/
inductive MutClass where
  | CREATE
  | MODIFY
deriving DecidableEq

/-- One extracted trace target (`TraceTarget` in TracePostHook.ts). -/
structure TraceTarget where
  path : String
  mutationClass : MutClass
deriving DecidableEq

/-- One audit record (`TraceLogEntry` in src/hooks/types.ts). -/
structure TraceLogEntry where
  intentId : String
  contentHash : String
  filePath : String
  mutationClass : MutClass
  timestamp : String
  toolName : String
deriving DecidableEq

/-- `PostHookResult`: `{ success: bool, traceEntry?: TraceLogEntry }`. -/
structure PostHookResult where
  success : Bool
  traceEntry : Option TraceLogEntry := none
deriving DecidableEq

/-- `TracePostHook.extractTraceTargets`: the same per-kind extraction as
the policy gate, additionally classifying each target (`AddFile` hunks
are `CREATE`, everything else `MODIFY`; the single-path tools always
yield `MODIFY`). -/
def TracePostHook.extractTraceTargets (deps : ExternalDeps)
    (context : ToolExecutionContext) : Except String (List TraceTarget) :=
  match context.toolName with
  | "write_to_file" | "apply_diff" =>
      .ok ((pathListOf context.toolParams.path context.toolParams.file_path).map
        (fun p => { path := p, mutationClass := .MODIFY }))
  | "edit" | "search_and_replace" | "search_replace" | "edit_file" =>
      .ok ((pathListOf context.toolParams.file_path context.toolParams.path).map
        (fun p => { path := p, mutationClass := .MODIFY }))
  | "apply_patch" =>
      match context.toolParams.patch with
      | none => .ok []
      | some patch =>
          if patch = "" then .ok []
          else
            (deps.parsePatch patch).map (fun parsed =>
              parsed.hunks.flatMap (fun hunk =>
                (match hunk.type with
                 | .AddFile => ({ path := hunk.path, mutationClass := .CREATE } : TraceTarget)
                 | _ => { path := hunk.path, mutationClass := .MODIFY }) ::
                  (match hunk.type, hunk.movePath with
                   | .UpdateFile, some m =>
                       if m ≠ "" then [{ path := m, mutationClass := .MODIFY }] else []
                   | _, _ => [])))
  | _ => .ok []

/-- `TracePostHook.resolveAbsolutePath`: leave absolute paths alone,
resolve relative ones against the workspace root. -/
def TracePostHook.resolveAbsolutePath (deps : ExternalDeps)
    (workspacePath filePath : String) : String :=
  if deps.isAbsolute filePath then filePath else deps.resolvePath workspacePath filePath

/-- `TracePostHook.computeContentHash`: sha256 hex of the file contents,
or the empty string when the read fails. -/
def TracePostHook.computeContentHash (deps : ExternalDeps) (absolutePath : String) : String :=
  match deps.readFile absolutePath with
  | some contents => deps.sha256hex contents
  | none => ""

/-- The trace entry written for one target inside `TracePostHook.run`. -/
def TracePostHook.traceEntryFor (deps : ExternalDeps) (context : ToolExecutionContext)
    (intent : ActiveIntent) (target : TraceTarget) : TraceLogEntry :=
  { intentId := intent.id
    contentHash :=
      TracePostHook.computeContentHash deps
        (TracePostHook.resolveAbsolutePath deps context.workspacePath target.path)
    filePath := target.path
    mutationClass := target.mutationClass
    timestamp := deps.timestamp
    toolName := context.toolName }

/-- `TracePostHook.run`: skip non-destructive tools and unattributed
operations; otherwise append one JSON line per extracted target to
`agent_trace.jsonl` (modelled as the entry list `traceLog`) and return
the last entry written.  A parser throw inside target extraction is not
caught and propagates. -/
def TracePostHook.run (deps : ExternalDeps) (st : ManagerState) (storage : StorageModel)
    (traceLog : List TraceLogEntry) (context : ToolExecutionContext) :
    Except String (PostHookResult × ManagerState × List TraceLogEntry) :=
  if DESTRUCTIVE_TOOLS.contains context.toolName = false then
    .ok ({ success := true }, st, traceLog)
  else
    match resolveActiveIntent st storage context with
    | .error e => .error e
    | .ok (none, st1) => .ok ({ success := true }, st1, traceLog)
    | .ok (some activeIntent, st1) =>
        match TracePostHook.extractTraceTargets deps context with
        | .error e => .error e
        | .ok targets =>
            if targets.isEmpty then .ok ({ success := true }, st1, traceLog)
            else
              let entries := targets.map (TracePostHook.traceEntryFor deps context activeIntent)
              .ok
                ({ success := true, traceEntry := entries.getLast? }, st1,
                 traceLog ++ entries)

/-! ## Supporting lemmas -/

theorem dropWhile_head_false {p : Char → Bool} :
    ∀ (l : List Char) (a : Char) (t : List Char), l.dropWhile p = a :: t → p a = false := by
  intro l
  induction l with
  | nil => intro a t h; simp [List.dropWhile] at h
  | cons x xs ih =>
      intro a t h
      cases hx : p x with
      | true => rw [List.dropWhile_cons, hx] at h; simpa using ih a t h
      | false =>
          rw [List.dropWhile_cons, hx] at h
          simp at h
          rw [← h.1]; exact hx

theorem dropWhile_eq_self_of_head {p : Char → Bool} (l : List Char)
    (h : ∀ a t, l = a :: t → p a = false) : l.dropWhile p = l := by
  cases l with
  | nil => rfl
  | cons a t => rw [List.dropWhile_cons, h a t rfl]; rfl

theorem trimChars_eq_rdropWhile (l : List Char) :
    trimChars l = List.rdropWhile isJsWhitespace (l.dropWhile isJsWhitespace) := rfl

theorem trimChars_idem (l : List Char) : trimChars (trimChars l) = trimChars l := by
  rw [trimChars_eq_rdropWhile, trimChars_eq_rdropWhile]
  have hdw :
      (List.rdropWhile isJsWhitespace (l.dropWhile isJsWhitespace)).dropWhile isJsWhitespace =
        List.rdropWhile isJsWhitespace (l.dropWhile isJsWhitespace) := by
    apply dropWhile_eq_self_of_head
    intro a t hat
    obtain ⟨u, hu⟩ := List.rdropWhile_prefix isJsWhitespace (l.dropWhile isJsWhitespace)
    rw [hat] at hu
    exact dropWhile_head_false l a (t ++ u) (by rw [← hu]; simp)
  rw [hdw, List.rdropWhile_idempotent]

theorem trimChars_wrapped (a b : Char) (l : List Char)
    (ha : isJsWhitespace a = false) (hb : isJsWhitespace b = false) :
    trimChars (a :: (l ++ [b])) = a :: (l ++ [b]) := by
  rw [trimChars_eq_rdropWhile, dropWhile_eq_self_of_head _
    (by intro x t hxt; simp only [List.cons.injEq] at hxt; rw [← hxt.1]; exact ha)]
  rw [show a :: (l ++ [b]) = (a :: l) ++ [b] by simp]
  exact List.rdropWhile_concat_neg _ _ _ (by simp [hb])

theorem jsTrim_idem (s : String) : jsTrim (jsTrim s) = jsTrim s :=
  congrArg String.mk (trimChars_idem s.data)

theorem jsTrim_wrapped (s : String) (c d : Char) (l : List Char)
    (hs : s.data = c :: (l ++ [d]))
    (hc : isJsWhitespace c = false) (hd : isJsWhitespace d = false) :
    jsTrim s = s := by
  apply String.ext
  show trimChars s.data = s.data
  rw [hs]
  exact trimChars_wrapped c d l hc hd

theorem ne_empty_of_length_pos {s : String} (h : 0 < s.length) : s ≠ "" := by
  intro he
  rw [he] at h
  simp at h

theorem normalizeStringArray_mem (v : JsValue) (s : String)
    (hs : s ∈ normalizeStringArray v) : jsTrim s = s ∧ s ≠ "" := by
  unfold normalizeStringArray at hs
  cases v <;> simp only [List.not_mem_nil] at hs
  case arr items =>
  rw [List.mem_filter] at hs
  obtain ⟨hmem, hlen⟩ := hs
  rw [List.mem_map] at hmem
  obtain ⟨x, _, rfl⟩ := hmem
  refine ⟨jsTrim_idem x, ne_empty_of_length_pos ?_⟩
  simpa using hlen

theorem jsonStringify_of_object (v : JsValue) (c : String)
    (hv : (∃ a, v = .arr a) ∨ ∃ o, v = .obj o)
    (hc : jsonStringify v = some c) : jsTrim c = c ∧ c ≠ "" := by
  rcases hv with ⟨a, rfl⟩ | ⟨o, rfl⟩
  · rw [show jsonStringify (.arr a) =
        some ("[" ++ String.intercalate "," (jsonArrParts a) ++ "]") from rfl] at hc
    rw [Option.some.injEq] at hc
    subst hc
    constructor
    · exact jsTrim_wrapped _ '[' ']' (String.intercalate "," (jsonArrParts a)).data
        (by simp [String.data_append]) (by decide) (by decide)
    · intro h
      have := congrArg String.data h
      simp [String.data_append] at this
  · rw [show jsonStringify (.obj o) =
        some ("\x7b" ++ String.intercalate "," (jsonObjParts o) ++ "\x7d") from rfl] at hc
    rw [Option.some.injEq] at hc
    subst hc
    constructor
    · exact jsTrim_wrapped _ '\x7b' '\x7d' (String.intercalate "," (jsonObjParts o)).data
        (by simp [String.data_append]) (by decide) (by decide)
    · intro h
      have := congrArg String.data h
      simp [String.data_append] at this

theorem compactPush_mem (item : JsValue) (s : String)
    (hv : (∃ a, item = .arr a) ∨ ∃ o, item = .obj o)
    (hs : s ∈ compactPush item) : jsTrim s = s ∧ s ≠ "" := by
  unfold compactPush at hs
  cases hj : jsonStringify item with
  | none => rw [hj] at hs; simp at hs
  | some c =>
      rw [hj] at hs
      replace hs : s ∈ (if c != "" then [c] else []) := hs
      split at hs
      · rw [List.mem_singleton] at hs
        subst hs
        exact jsonStringify_of_object item s hv hj
      · simp at hs

theorem normalizeConstraintItem_mem (item : JsValue) (s : String)
    (hs : s ∈ normalizeConstraintItem item) : jsTrim s = s ∧ s ≠ "" := by
  cases item with
  | str v =>
      replace hs : s ∈ (if (jsTrim v).length > 0 then [jsTrim v] else []) := hs
      by_cases hv : (jsTrim v).length > 0
      · rw [if_pos hv, List.mem_singleton] at hs
        subst hs
        exact ⟨jsTrim_idem v, ne_empty_of_length_pos (by simpa using hv)⟩
      · rw [if_neg hv] at hs
        simp at hs
  | arr a =>
      replace hs : s ∈ (match jsField (.arr a) "rule" with
          | .str r => if (jsTrim r).length > 0 then [jsTrim r] else compactPush (.arr a)
          | _ => compactPush (.arr a)) := hs
      have hcp : s ∈ compactPush (JsValue.arr a) → jsTrim s = s ∧ s ≠ "" :=
        fun h => compactPush_mem _ s (Or.inl ⟨a, rfl⟩) h
      cases hr : jsField (.arr a) "rule" with
      | str r =>
          rw [hr] at hs
          replace hs : s ∈ (if (jsTrim r).length > 0 then [jsTrim r]
              else compactPush (JsValue.arr a)) := hs
          by_cases hv : (jsTrim r).length > 0
          · rw [if_pos hv, List.mem_singleton] at hs
            subst hs
            exact ⟨jsTrim_idem r, ne_empty_of_length_pos (by simpa using hv)⟩
          · rw [if_neg hv] at hs
            exact hcp hs
      | jsUndefined => rw [hr] at hs; exact hcp hs
      | jsNull => rw [hr] at hs; exact hcp hs
      | bool b => rw [hr] at hs; exact hcp hs
      | num n => rw [hr] at hs; exact hcp hs
      | arr a2 => rw [hr] at hs; exact hcp hs
      | obj o2 => rw [hr] at hs; exact hcp hs
  | obj o =>
      replace hs : s ∈ (match jsField (.obj o) "rule" with
          | .str r => if (jsTrim r).length > 0 then [jsTrim r] else compactPush (.obj o)
          | _ => compactPush (.obj o)) := hs
      have hcp : s ∈ compactPush (JsValue.obj o) → jsTrim s = s ∧ s ≠ "" :=
        fun h => compactPush_mem _ s (Or.inr ⟨o, rfl⟩) h
      cases hr : jsField (.obj o) "rule" with
      | str r =>
          rw [hr] at hs
          replace hs : s ∈ (if (jsTrim r).length > 0 then [jsTrim r]
              else compactPush (JsValue.obj o)) := hs
          by_cases hv : (jsTrim r).length > 0
          · rw [if_pos hv, List.mem_singleton] at hs
            subst hs
            exact ⟨jsTrim_idem r, ne_empty_of_length_pos (by simpa using hv)⟩
          · rw [if_neg hv] at hs
            exact hcp hs
      | jsUndefined => rw [hr] at hs; exact hcp hs
      | jsNull => rw [hr] at hs; exact hcp hs
      | bool b => rw [hr] at hs; exact hcp hs
      | num n => rw [hr] at hs; exact hcp hs
      | arr a2 => rw [hr] at hs; exact hcp hs
      | obj o2 => rw [hr] at hs; exact hcp hs
  | jsUndefined => simp [normalizeConstraintItem] at hs
  | jsNull => simp [normalizeConstraintItem] at hs
  | bool b => simp [normalizeConstraintItem] at hs
  | num n => simp [normalizeConstraintItem] at hs

theorem normalizeConstraints_mem (v : JsValue) (s : String)
    (hs : s ∈ normalizeConstraints v) : jsTrim s = s ∧ s ≠ "" := by
  unfold normalizeConstraints at hs
  cases v <;> simp only [List.not_mem_nil] at hs
  case arr items =>
  rw [List.mem_flatMap] at hs
  obtain ⟨item, _, hitem⟩ := hs
  exact normalizeConstraintItem_mem item s hitem

theorem statusFromUpper_not_known (s : String) (h : s ∉ knownStatusStrings) :
    statusFromUpper s = .PENDING := by
  unfold knownStatusStrings at h
  simp only [List.mem_cons, List.not_mem_nil, or_false, not_or] at h
  obtain ⟨h1, h2, h3, h4, h5⟩ := h
  unfold statusFromUpper
  rw [if_neg h1, if_neg h2, if_neg h3, if_neg h4, if_neg h5]

theorem normalizeIntent_eq_fields (raw : JsValue) (i : ActiveIntent)
    (h : normalizeIntent raw = some i) : i = normalizeIntentFields raw := by
  cases raw <;> simp [normalizeIntent] at h <;> exact h.symm

/-! ## Claim C6 -/

/-- C6: for every raw intent entry that normalizes, the normalized
`ownedScope`, `constraints` and `acceptanceCriteria` are (total, never
null/absent) lists whose every element is a trimmed, non-empty string;
an entry whose `status` field is missing normalizes to status `PENDING`,
and so does an entry whose `status` is a string not recognized (after
upper-casing) as one of the five known status values. -/
theorem normalizeIntent_invariants (raw : JsValue) (i : ActiveIntent)
    (hnorm : normalizeIntent raw = some i) :
    (∀ s ∈ i.ownedScope, jsTrim s = s ∧ s ≠ "")
    ∧ (∀ s ∈ i.constraints, jsTrim s = s ∧ s ≠ "")
    ∧ (∀ s ∈ i.acceptanceCriteria, jsTrim s = s ∧ s ≠ "")
    ∧ (jsField raw "status" = .jsUndefined → i.status = .PENDING)
    ∧ (∀ s, jsField raw "status" = .str s → jsToUpperCase s ∉ knownStatusStrings →
        i.status = .PENDING) := by
  have hi := normalizeIntent_eq_fields raw i hnorm
  subst hi
  refine ⟨?_, ?_, ?_, ?_, ?_⟩
  · intro s hs; exact normalizeStringArray_mem _ s hs
  · intro s hs; exact normalizeConstraints_mem _ s hs
  · intro s hs; exact normalizeStringArray_mem _ s hs
  · intro hstat
    show statusFromUpper
        (jsToUpperCase (jsToString (jsOr (jsField raw "status") (.str "PENDING")))) = .PENDING
    rw [hstat]
    rfl
  · intro s hstat hnk
    show statusFromUpper
        (jsToUpperCase (jsToString (jsOr (jsField raw "status") (.str "PENDING")))) = .PENDING
    rw [hstat]
    by_cases hse : s = ""
    · subst hse; rfl
    · have hor : jsOr (.str s) (.str "PENDING") = .str s := by
        simp [jsOr, jsTruthy, hse]
      rw [hor]
      exact statusFromUpper_not_known _ hnk

/-- A raw entry exercising every clause of `normalizeIntent_invariants`:
a padded scope pattern, a structured constraint with a padded rule, and
an unrecognized status string. -/
def rawStatusBogus : JsValue :=
  .obj (.cons "status" (.str "bogus")
    (.cons "ownedScope" (.arr (.cons (.str "  src/** ") .nil))
    (.cons "constraints" (.arr (.cons (.obj (.cons "rule" (.str " r ") .nil)) .nil))
      .nil)))

/-- Witness for C6 at `rawStatusBogus`. -/
theorem normalizeIntent_invariants_witness :
    (∀ s ∈ (normalizeIntentFields rawStatusBogus).ownedScope, jsTrim s = s ∧ s ≠ "")
    ∧ (∀ s ∈ (normalizeIntentFields rawStatusBogus).constraints, jsTrim s = s ∧ s ≠ "")
    ∧ (∀ s ∈ (normalizeIntentFields rawStatusBogus).acceptanceCriteria, jsTrim s = s ∧ s ≠ "")
    ∧ (jsField rawStatusBogus "status" = .jsUndefined →
        (normalizeIntentFields rawStatusBogus).status = .PENDING)
    ∧ (∀ s, jsField rawStatusBogus "status" = .str s →
        jsToUpperCase s ∉ knownStatusStrings →
        (normalizeIntentFields rawStatusBogus).status = .PENDING) :=
  normalizeIntent_invariants rawStatusBogus (normalizeIntentFields rawStatusBogus) rfl

/-! ## Claim C5 -/

/-- The manager state before any load, with no bindings. -/
def emptyManagerState : ManagerState :=
  { intentsCache := none, activeIntentsByTask := [] }

/-- A definition document whose single intent entry has no `id` field. -/
def storageNoId : StorageModel :=
  { intentsFileExists := true
    parsedYaml := .ok (.obj (.cons "intents" (.arr (.cons (.obj .nil) .nil)) .nil)) }

/-- The intent that the entry without an `id` normalizes to. -/
def emptyFieldIntent : ActiveIntent :=
  { id := "", name := "", description := "", status := .PENDING,
    ownedScope := [], constraints := [], acceptanceCriteria := [], metadata := .obj .nil }

/-- C5 counterexample: a raw entry with no `id` field loads successfully
and normalizes to an intent whose `id` is the empty string, so loaded
intents do not always have a non-empty id. -/
theorem loadIntents_empty_id_counterexample :
    (IntentManager.loadIntents emptyManagerState storageNoId).result = .ok [emptyFieldIntent]
    ∧ emptyFieldIntent.id = "" :=
  ⟨rfl, rfl⟩

/-- C5 (amended): the normalized `id` is `String(raw.id || "")`; it is
non-empty exactly when the raw `id` is truthy.  In particular, when the
raw `id` field is a non-empty string, the normalized intent keeps that
exact id and it is non-empty; non-emptiness is not otherwise enforced. -/
theorem normalizeIntent_truthy_id (raw : JsValue) (s : String) (i : ActiveIntent)
    (hid : jsField raw "id" = .str s) (hs : s ≠ "")
    (hnorm : normalizeIntent raw = some i) : i.id = s ∧ i.id ≠ "" := by
  have hi := normalizeIntent_eq_fields raw i hnorm
  subst hi
  have hidv : (normalizeIntentFields raw).id = s := by
    show jsToString (jsOr (jsField raw "id") (.str "")) = s
    rw [hid]
    have hor : jsOr (.str s) (.str "") = .str s := by
      simp [jsOr, jsTruthy, hs]
    rw [hor]
    rfl
  exact ⟨hidv, by rw [hidv]; exact hs⟩

/-- A raw entry with the non-empty string id `INT-9`. -/
def rawWithId : JsValue :=
  .obj (.cons "id" (.str "INT-9") .nil)

/-- Witness for the amended C5 at `rawWithId`. -/
theorem normalizeIntent_truthy_id_witness :
    (normalizeIntentFields rawWithId).id = "INT-9"
    ∧ (normalizeIntentFields rawWithId).id ≠ "" :=
  normalizeIntent_truthy_id rawWithId "INT-9" (normalizeIntentFields rawWithId)
    rfl (by decide) rfl

/-! ## Claim C7 -/

theorem loadIntents_ok_caches (st : ManagerState) (storage : StorageModel) (l : List ActiveIntent)
    (h : (IntentManager.loadIntents st storage).result = .ok l) :
    (IntentManager.loadIntents st storage).state.intentsCache = some l := by
  unfold IntentManager.loadIntents at h ⊢
  cases hc : st.intentsCache with
  | some cache =>
      simp only [hc] at h ⊢
      simp only [Except.ok.injEq] at h
      simp [hc, h]
  | none =>
      simp only [hc] at h ⊢
      by_cases hf : storage.intentsFileExists = false
      · simp only [if_pos hf] at h ⊢
        simp only [Except.ok.injEq] at h
        simp [h]
      · simp only [if_neg hf] at h ⊢
        cases hp : storage.parsedYaml with
        | error e => simp only [hp] at h; simp at h
        | ok parsed =>
            simp only [hp] at h ⊢
            cases hraw : extractRawIntents parsed with
            | none =>
                simp only [hraw] at h ⊢
                simp only [Except.ok.injEq] at h
                simp [h]
            | some raws =>
                simp only [hraw] at h ⊢
                cases hmap : raws.mapM normalizeIntent with
                | none => simp only [hmap] at h; simp at h
                | some intents =>
                    simp only [hmap] at h ⊢
                    simp only [Except.ok.injEq] at h
                    simp [h]

/-- C7: when a `loadIntents` call returns a sequence, a second call
without an intervening `invalidateCache` returns the identical sequence,
leaves the state unchanged, and performs no further read-and-parse of
the definition resource (it is served from the populated cache). -/
theorem loadIntents_idempotent_cached (st : ManagerState) (storage : StorageModel)
    (l : List ActiveIntent)
    (hfirst : (IntentManager.loadIntents st storage).result = .ok l) :
    IntentManager.loadIntents (IntentManager.loadIntents st storage).state storage =
      { result := .ok l
        state := (IntentManager.loadIntents st storage).state
        didParse := false } := by
  have hc := loadIntents_ok_caches st storage l hfirst
  conv_lhs => rw [IntentManager.loadIntents]
  rw [hc]

/-- Witness for C7: loading the no-id document twice parses once and
returns the same sequence from the cache on the second call. -/
theorem loadIntents_idempotent_cached_witness :
    IntentManager.loadIntents
        (IntentManager.loadIntents emptyManagerState storageNoId).state storageNoId =
      { result := .ok [emptyFieldIntent]
        state := (IntentManager.loadIntents emptyManagerState storageNoId).state
        didParse := false } :=
  loadIntents_idempotent_cached emptyManagerState storageNoId [emptyFieldIntent] rfl

/-! ## Claim C10 -/

/-- C10: `invalidateCache` clears only the intent-definition cache; the
task-to-intent binding map is unchanged, so every task id bound before
invalidation is still bound to the same intent id afterwards. -/
theorem invalidateCache_preserves_bindings (st : ManagerState) :
    (IntentManager.invalidateCache st).intentsCache = none
    ∧ (IntentManager.invalidateCache st).activeIntentsByTask = st.activeIntentsByTask
    ∧ ∀ taskId, (IntentManager.invalidateCache st).activeIntentsByTask.lookup taskId =
        st.activeIntentsByTask.lookup taskId :=
  ⟨rfl, rfl, fun _ => rfl⟩

/-! ## Claim C1 -/

/-- C1: for a mutation-capable operation other than `execute_command`
with an active intent resolved and path extraction succeeding, the gate
allows when every extracted candidate path is in the intent's owned
scope, and denies with the `scopeViolationMessage` naming the (first)
offending out-of-scope path when any extracted path is out of scope. -/
theorem preToolHook_scope_validation (deps : ExternalDeps) (st : ManagerState)
    (storage : StorageModel) (context : ToolExecutionContext) (intent : ActiveIntent)
    (st1 : ManagerState) (paths : List String)
    (hdest : DESTRUCTIVE_TOOLS.contains context.toolName = true)
    (hnotexec : context.toolName ≠ "execute_command")
    (hres : resolveActiveIntent st storage context = .ok (some intent, st1))
    (hext : PreToolHook.extractPathsForScopeValidation deps context = .ok paths) :
    ((∀ p ∈ paths, deps.validatePath p intent.ownedScope = true) →
        PreToolHook.run deps st storage context = .ok ({ allowed := true }, st1))
    ∧ (∀ p₀, paths.find? (fun p => !(deps.validatePath p intent.ownedScope)) = some p₀ →
        deps.validatePath p₀ intent.ownedScope = false ∧ p₀ ∈ paths ∧
        PreToolHook.run deps st storage context =
          .ok ({ allowed := false, error := some (scopeViolationMessage intent p₀) }, st1))
    ∧ ((∃ p ∈ paths, deps.validatePath p intent.ownedScope = false) →
        ∃ p₀, paths.find? (fun p => !(deps.validatePath p intent.ownedScope)) = some p₀) := by
  have hrun : PreToolHook.run deps st storage context =
      match paths.find? (fun p => !(deps.validatePath p intent.ownedScope)) with
      | some offending =>
          .ok ({ allowed := false, error := some (scopeViolationMessage intent offending) }, st1)
      | none => .ok ({ allowed := true }, st1) := by
    unfold PreToolHook.run
    simp only [hdest, hres, hext]
    simp [hnotexec]
  refine ⟨?_, ?_, ?_⟩
  · intro hall
    have hfind : paths.find? (fun p => !(deps.validatePath p intent.ownedScope)) = none :=
      List.find?_eq_none.mpr (fun x hx => by simp [hall x hx])
    rw [hrun, hfind]
  · intro p₀ hf
    have hp₀ : deps.validatePath p₀ intent.ownedScope = false := by
      have := List.find?_some hf
      simpa using this
    exact ⟨hp₀, List.mem_of_find?_eq_some hf, by rw [hrun, hf]⟩
  · intro hex
    obtain ⟨p, hp, hpf⟩ := hex
    have : (paths.find? (fun p => !(deps.validatePath p intent.ownedScope))).isSome :=
      List.find?_isSome.mpr ⟨p, hp, by simp [hpf]⟩
    exact Option.isSome_iff_exists.mp this

/-- The intent used by the hook witnesses, cached and bound to task
`task-1`. -/
def fixtureIntent : ActiveIntent :=
  { id := "INT-001", name := "Intent test", description := "",
    status := .IN_PROGRESS, ownedScope := ["src/**"],
    constraints := [], acceptanceCriteria := [], metadata := .obj .nil }

/-- Manager state with `fixtureIntent` cached and bound to `task-1`. -/
def fixtureState : ManagerState :=
  { intentsCache := some [fixtureIntent], activeIntentsByTask := [("task-1", "INT-001")] }

/-- Storage whose contents are never consulted because the cache is
populated. -/
def fixtureStorage : StorageModel :=
  { intentsFileExists := true, parsedYaml := .ok .jsNull }

/-- Concrete external collaborators: a validator accepting exactly
`src/ok.ts`, and a filesystem on which every read fails. -/
def fixtureDeps : ExternalDeps :=
  { parsePatch := fun _ => .ok { hunks := [] }
    validatePath := fun p _ => decide (p = "src/ok.ts")
    readFile := fun _ => none
    sha256hex := fun _ => ""
    isAbsolute := fun _ => false
    resolvePath := fun w q => w ++ "/" ++ q
    timestamp := "2026-02-16T00:00:00.000Z" }

/-- An `apply_diff` request targeting `src/ok.ts` for task `task-1`. -/
def ctxApplyDiff : ToolExecutionContext :=
  { toolName := "apply_diff", toolParams := { path := some "src/ok.ts" },
    taskId := "task-1", workspacePath := "/w" }

/-- Witness for C1 at a single in-scope candidate path. -/
theorem preToolHook_scope_validation_witness :
    ((∀ p ∈ ["src/ok.ts"], fixtureDeps.validatePath p fixtureIntent.ownedScope = true) →
        PreToolHook.run fixtureDeps fixtureState fixtureStorage ctxApplyDiff =
          .ok ({ allowed := true }, fixtureState))
    ∧ (∀ p₀, (["src/ok.ts"] : List String).find?
          (fun p => !(fixtureDeps.validatePath p fixtureIntent.ownedScope)) = some p₀ →
        fixtureDeps.validatePath p₀ fixtureIntent.ownedScope = false ∧
          p₀ ∈ ["src/ok.ts"] ∧
          PreToolHook.run fixtureDeps fixtureState fixtureStorage ctxApplyDiff =
            .ok ({ allowed := false,
                   error := some (scopeViolationMessage fixtureIntent p₀) }, fixtureState))
    ∧ ((∃ p ∈ ["src/ok.ts"], fixtureDeps.validatePath p fixtureIntent.ownedScope = false) →
        ∃ p₀, (["src/ok.ts"] : List String).find?
          (fun p => !(fixtureDeps.validatePath p fixtureIntent.ownedScope)) = some p₀) :=
  preToolHook_scope_validation fixtureDeps fixtureState fixtureStorage ctxApplyDiff
    fixtureIntent fixtureState ["src/ok.ts"] (by decide) (by decide) rfl rfl

/-! ## Claim C2 -/

/-- C2: once an active intent resolves, an `execute_command` request is
denied unconditionally (the parameters carry no extractable path and are
never inspected). -/
theorem preToolHook_execute_command_denied (deps : ExternalDeps) (st : ManagerState)
    (storage : StorageModel) (context : ToolExecutionContext) (intent : ActiveIntent)
    (st1 : ManagerState)
    (htool : context.toolName = "execute_command")
    (hres : resolveActiveIntent st storage context = .ok (some intent, st1)) :
    PreToolHook.run deps st storage context =
      .ok ({ allowed := false, error := some (executeCommandDenialMessage intent) }, st1) := by
  have hdest : DESTRUCTIVE_TOOLS.contains context.toolName = true := by
    rw [htool]; decide
  unfold PreToolHook.run
  simp only [hdest, hres]
  simp [htool]

/-- An `execute_command` request for task `task-1`. -/
def ctxExecuteCommand : ToolExecutionContext :=
  { toolName := "execute_command", toolParams := {},
    taskId := "task-1", workspacePath := "/w" }

/-- Witness for C2 with the bound intent active. -/
theorem preToolHook_execute_command_denied_witness :
    PreToolHook.run fixtureDeps fixtureState fixtureStorage ctxExecuteCommand =
      .ok ({ allowed := false,
             error := some (executeCommandDenialMessage fixtureIntent) }, fixtureState) :=
  preToolHook_execute_command_denied fixtureDeps fixtureState fixtureStorage
    ctxExecuteCommand fixtureIntent fixtureState rfl rfl

/-! ## Claim C3 -/

/-- C3: a mutation-capable request for which no active intent resolves is
denied with the `noActiveIntentMessage`; a request whose tool is not
mutation-capable is allowed with the state untouched, regardless of the
intent state. -/
theorem preToolHook_intent_requirement (deps : ExternalDeps) (st : ManagerState)
    (storage : StorageModel) (context : ToolExecutionContext) :
    (∀ st1, DESTRUCTIVE_TOOLS.contains context.toolName = true →
        resolveActiveIntent st storage context = .ok (none, st1) →
        PreToolHook.run deps st storage context =
          .ok ({ allowed := false, error := some (noActiveIntentMessage context.toolName) }, st1))
    ∧ (DESTRUCTIVE_TOOLS.contains context.toolName = false →
        PreToolHook.run deps st storage context = .ok ({ allowed := true }, st)) := by
  constructor
  · intro st1 hdest hres
    unfold PreToolHook.run
    simp only [hdest, hres]
    simp
  · intro hdest
    unfold PreToolHook.run
    rw [hdest]
    simp

/-- A `write_to_file` request for the unbound task `task-9`. -/
def ctxWriteNoIntent : ToolExecutionContext :=
  { toolName := "write_to_file", toolParams := { path := some "src/ok.ts" },
    taskId := "task-9", workspacePath := "/w" }

/-- A `read_file` request (not mutation-capable). -/
def ctxReadFile : ToolExecutionContext :=
  { toolName := "read_file", toolParams := { path := some "src/ok.ts" },
    taskId := "task-9", workspacePath := "/w" }

/-- Witness for C3: denial without an intent, and unconditional allowance
of a non-mutating tool. -/
theorem preToolHook_intent_requirement_witness :
    PreToolHook.run fixtureDeps fixtureState fixtureStorage ctxWriteNoIntent =
      .ok ({ allowed := false,
             error := some (noActiveIntentMessage "write_to_file") }, fixtureState)
    ∧ PreToolHook.run fixtureDeps fixtureState fixtureStorage ctxReadFile =
      .ok ({ allowed := true }, fixtureState) :=
  ⟨(preToolHook_intent_requirement fixtureDeps fixtureState fixtureStorage
      ctxWriteNoIntent).1 fixtureState (by decide) rfl,
   (preToolHook_intent_requirement fixtureDeps fixtureState fixtureStorage
      ctxReadFile).2 (by decide)⟩

/-! ## Claim C4 -/

/-- C4: a mutation-capable operation other than `execute_command`
evaluated with an active intent but whose path extraction yields no
target path is allowed, for every possible scope-validator behaviour (no
scope check can influence the outcome). -/
theorem preToolHook_empty_extraction_allows (deps : ExternalDeps) (st : ManagerState)
    (storage : StorageModel) (context : ToolExecutionContext) (intent : ActiveIntent)
    (st1 : ManagerState)
    (hdest : DESTRUCTIVE_TOOLS.contains context.toolName = true)
    (hnotexec : context.toolName ≠ "execute_command")
    (hres : resolveActiveIntent st storage context = .ok (some intent, st1))
    (hext : PreToolHook.extractPathsForScopeValidation deps context = .ok []) :
    PreToolHook.run deps st storage context = .ok ({ allowed := true }, st1) := by
  unfold PreToolHook.run
  simp only [hdest, hres, hext]
  simp [hnotexec]

/-- External collaborators whose validator rejects every path. -/
def fixtureDepsRejectAll : ExternalDeps :=
  { parsePatch := fun _ => .ok { hunks := [] }
    validatePath := fun _ _ => false
    readFile := fun _ => none
    sha256hex := fun _ => ""
    isAbsolute := fun _ => false
    resolvePath := fun w q => w ++ "/" ++ q
    timestamp := "2026-02-16T00:00:00.000Z" }

/-- A `write_to_file` request with neither `path` nor `file_path`. -/
def ctxWriteNoPath : ToolExecutionContext :=
  { toolName := "write_to_file", toolParams := {},
    taskId := "task-1", workspacePath := "/w" }

/-- Witness for C4: the pathless write is allowed even though the
validator rejects everything. -/
theorem preToolHook_empty_extraction_allows_witness :
    PreToolHook.run fixtureDepsRejectAll fixtureState fixtureStorage ctxWriteNoPath =
      .ok ({ allowed := true }, fixtureState) :=
  preToolHook_empty_extraction_allows fixtureDepsRejectAll fixtureState fixtureStorage
    ctxWriteNoPath fixtureIntent fixtureState (by decide) (by decide) rfl rfl

/-! ## Claim C8 -/

/-- C8: a `write_to_file` to a single path, executed with an active
intent, appends exactly one trace entry for that path — classified
`MODIFY` per the kind's own semantics, carrying the (non-empty) tool
name — and returns that entry as `traceEntry`. -/
theorem tracePostHook_write_single (deps : ExternalDeps) (st : ManagerState)
    (storage : StorageModel) (traceLog : List TraceLogEntry) (context : ToolExecutionContext)
    (intent : ActiveIntent) (st1 : ManagerState) (p : String)
    (htool : context.toolName = "write_to_file")
    (hpath : jsOrStr context.toolParams.path context.toolParams.file_path = p)
    (hp : p ≠ "")
    (hres : resolveActiveIntent st storage context = .ok (some intent, st1)) :
    TracePostHook.run deps st storage traceLog context =
        .ok ({ success := true,
               traceEntry :=
                 some (TracePostHook.traceEntryFor deps context intent
                   { path := p, mutationClass := .MODIFY }) }, st1,
             traceLog ++
               [TracePostHook.traceEntryFor deps context intent
                 { path := p, mutationClass := .MODIFY }])
    ∧ (TracePostHook.traceEntryFor deps context intent
        { path := p, mutationClass := .MODIFY }).mutationClass = .MODIFY
    ∧ (TracePostHook.traceEntryFor deps context intent
        { path := p, mutationClass := .MODIFY }).toolName = context.toolName
    ∧ (TracePostHook.traceEntryFor deps context intent
        { path := p, mutationClass := .MODIFY }).toolName ≠ ""
    ∧ (TracePostHook.traceEntryFor deps context intent
        { path := p, mutationClass := .MODIFY }).filePath = p := by
  obtain ⟨toolName, toolParams, taskId, workspacePath, activeIntentId⟩ := context
  simp only at htool hpath hres ⊢
  subst htool
  have hextr : TracePostHook.extractTraceTargets deps
      ⟨"write_to_file", toolParams, taskId, workspacePath, activeIntentId⟩ =
      .ok [{ path := p, mutationClass := .MODIFY }] := by
    show Except.ok ((pathListOf toolParams.path toolParams.file_path).map
        (fun q => ({ path := q, mutationClass := .MODIFY } : TraceTarget))) =
      Except.ok [({ path := p, mutationClass := .MODIFY } : TraceTarget)]
    unfold pathListOf
    rw [hpath, if_pos hp]
    rfl
  have hdest : DESTRUCTIVE_TOOLS.contains "write_to_file" = true := by decide
  refine ⟨?_, rfl, rfl, by simp [TracePostHook.traceEntryFor], rfl⟩
  unfold TracePostHook.run
  simp only [hdest, hres, hextr]
  simp

/-- A `write_to_file` request targeting the new path `src/new.ts`. -/
def ctxWriteNew : ToolExecutionContext :=
  { toolName := "write_to_file", toolParams := { path := some "src/new.ts" },
    taskId := "task-1", workspacePath := "/w" }

/-- Witness for C8 at `src/new.ts` on an initially empty trace log. -/
theorem tracePostHook_write_single_witness :
    TracePostHook.run fixtureDeps fixtureState fixtureStorage [] ctxWriteNew =
        .ok ({ success := true,
               traceEntry :=
                 some (TracePostHook.traceEntryFor fixtureDeps ctxWriteNew fixtureIntent
                   { path := "src/new.ts", mutationClass := .MODIFY }) }, fixtureState,
             [] ++
               [TracePostHook.traceEntryFor fixtureDeps ctxWriteNew fixtureIntent
                 { path := "src/new.ts", mutationClass := .MODIFY }])
    ∧ (TracePostHook.traceEntryFor fixtureDeps ctxWriteNew fixtureIntent
        { path := "src/new.ts", mutationClass := .MODIFY }).mutationClass = .MODIFY
    ∧ (TracePostHook.traceEntryFor fixtureDeps ctxWriteNew fixtureIntent
        { path := "src/new.ts", mutationClass := .MODIFY }).toolName = ctxWriteNew.toolName
    ∧ (TracePostHook.traceEntryFor fixtureDeps ctxWriteNew fixtureIntent
        { path := "src/new.ts", mutationClass := .MODIFY }).toolName ≠ ""
    ∧ (TracePostHook.traceEntryFor fixtureDeps ctxWriteNew fixtureIntent
        { path := "src/new.ts", mutationClass := .MODIFY }).filePath = "src/new.ts" :=
  tracePostHook_write_single fixtureDeps fixtureState fixtureStorage [] ctxWriteNew
    fixtureIntent fixtureState "src/new.ts" rfl rfl (by decide) rfl

/-! ## Claim C9 -/

/-- C9: during audit with an active intent and non-empty extracted
targets, the run appends exactly one entry per target and completes with
`success`; every target whose resolved file cannot be read is still
recorded, with the empty string as its content hash — a read failure
never aborts the audit. -/
theorem tracePostHook_read_failure (deps : ExternalDeps) (st : ManagerState)
    (storage : StorageModel) (traceLog : List TraceLogEntry) (context : ToolExecutionContext)
    (intent : ActiveIntent) (st1 : ManagerState) (targets : List TraceTarget)
    (hdest : DESTRUCTIVE_TOOLS.contains context.toolName = true)
    (hres : resolveActiveIntent st storage context = .ok (some intent, st1))
    (hext : TracePostHook.extractTraceTargets deps context = .ok targets)
    (hne : targets ≠ []) :
    TracePostHook.run deps st storage traceLog context =
        .ok ({ success := true,
               traceEntry :=
                 (targets.map (TracePostHook.traceEntryFor deps context intent)).getLast? },
             st1, traceLog ++ targets.map (TracePostHook.traceEntryFor deps context intent))
    ∧ ∀ t ∈ targets,
        deps.readFile (TracePostHook.resolveAbsolutePath deps context.workspacePath t.path) =
            none →
          (TracePostHook.traceEntryFor deps context intent t).contentHash = ""
          ∧ (TracePostHook.traceEntryFor deps context intent t).filePath = t.path := by
  constructor
  · have hie : targets.isEmpty = false := by
      cases targets with
      | nil => exact absurd rfl hne
      | cons hd tl => rfl
    unfold TracePostHook.run
    simp only [hdest, hres, hext, hie]
    simp
  · intro t _ hread
    constructor
    · show TracePostHook.computeContentHash deps
        (TracePostHook.resolveAbsolutePath deps context.workspacePath t.path) = ""
      unfold TracePostHook.computeContentHash
      rw [hread]
    · rfl

/-- An `edit` request on `src/hooks/a.ts` for task `task-1`. -/
def ctxEdit : ToolExecutionContext :=
  { toolName := "edit", toolParams := { file_path := some "src/hooks/a.ts" },
    taskId := "task-1", workspacePath := "/w" }

/-- Witness for C9: on `fixtureDeps` every read fails, yet the audit
succeeds and records the entry with an empty hash. -/
theorem tracePostHook_read_failure_witness :
    TracePostHook.run fixtureDeps fixtureState fixtureStorage [] ctxEdit =
        .ok ({ success := true,
               traceEntry :=
                 (([{ path := "src/hooks/a.ts", mutationClass := .MODIFY }] :
                     List TraceTarget).map
                   (TracePostHook.traceEntryFor fixtureDeps ctxEdit fixtureIntent)).getLast? },
             fixtureState,
             [] ++ ([{ path := "src/hooks/a.ts", mutationClass := .MODIFY }] :
                 List TraceTarget).map
               (TracePostHook.traceEntryFor fixtureDeps ctxEdit fixtureIntent))
    ∧ ∀ t ∈ ([{ path := "src/hooks/a.ts", mutationClass := .MODIFY }] : List TraceTarget),
        fixtureDeps.readFile
            (TracePostHook.resolveAbsolutePath fixtureDeps ctxEdit.workspacePath t.path) =
            none →
          (TracePostHook.traceEntryFor fixtureDeps ctxEdit fixtureIntent t).contentHash = ""
          ∧ (TracePostHook.traceEntryFor fixtureDeps ctxEdit fixtureIntent t).filePath =
              t.path :=
  tracePostHook_read_failure fixtureDeps fixtureState fixtureStorage [] ctxEdit
    fixtureIntent fixtureState [{ path := "src/hooks/a.ts", mutationClass := .MODIFY }]
    (by decide) rfl rfl (by decide)
